import Mathlib

/-!
Shallow embedding of the story-video export pipeline (`generateStoryVideo`,
`drawAsset`, `drawSubtitles` and the surrounding helpers of the video
generator module).  Durations, scales, canvas coordinates and measured text
widths are modelled as rationals; time-independent per-frame computations are
embedded as pure functions of the elapsed time / progress fraction.
-/

namespace StoryVideo

/-! ## Scene segment duration

Source: `const duration = Math.max(audioBuffer ? audioBuffer.duration : 3.0, 2.0)`.
`audioDuration = none` models a scene with no decodable narration audio
(either no audio bytes or a decode failure, both leave `audioBuffer` null). -/

/-- Duration of scene segment `i`, given the decoded narration audio's
duration (or `none` when the scene has no decodable audio). -/
def sceneDuration (audioDuration : Option ℚ) : ℚ :=
  max (audioDuration.getD 3) 2

/-- Modelled from the spec's words (for comparison only): `duration =
max(audioDuration, 3.0)` when audio is present, else exactly `3.0`. -/
def sceneDurationSpec (audioDuration : Option ℚ) : ℚ :=
  match audioDuration with
  | some d => max d 3
  | none => 3

/-! ## Ken Burns effect for still-image scene segments

Source: `zoomDirection = i % 2 === 0 ? 1 : -1`, `scaleBase = 1.1`,
`scaleVar = 0.15`, `currentScale = zoomDirection === 1 ? scaleBase +
scaleVar*progress : (scaleBase + scaleVar) - scaleVar*progress`; the final
draw scale adds the breathing term, and video assets are drawn at `1.0`. -/

/-- Ken Burns scale for the still image of scene `i` at progress fraction
`progress` (the breathing term excluded). -/
def kenBurnsScale (i : ℕ) (progress : ℚ) : ℚ :=
  let zoomDirection : ℤ := if i % 2 = 0 then 1 else -1
  let scaleBase : ℚ := 11/10
  let scaleVar : ℚ := 3/20
  if zoomDirection = 1 then scaleBase + scaleVar * progress
  else (scaleBase + scaleVar) - scaleVar * progress

/-- Scale passed to `drawAsset` for a scene-segment frame: `1.0` for video
assets, Ken Burns plus the breathing oscillation for still images. -/
def sceneDrawScale (isVideoAsset : Bool) (i : ℕ) (progress breathing : ℚ) : ℚ :=
  if isVideoAsset then 1 else kenBurnsScale i progress + breathing

/-! ## Transition segments

Source: the transition branch runs only when `nextAsset` exists; with a
loaded transition clip it samples the clip for `transitionVideo.duration ||
2.0` seconds, otherwise it runs the synthesized slide for a fixed `1.0`
seconds.  A falsy clip duration (`0`, and `NaN` in JS) is modelled as `0`. -/

inductive TransitionMode where
  | clip
  | slide
deriving DecidableEq

structure TransitionSegment where
  mode : TransitionMode
  duration : ℚ
deriving DecidableEq

/-- Transition segment after scene `i`: present only when a next scene
exists; clip mode whenever a transition clip was loaded (its duration
defaulted through `|| 2.0`), else the 1.0s synthesized slide. -/
def transitionSegment (hasNextScene : Bool) (transitionClipDuration : Option ℚ) :
    Option TransitionSegment :=
  if hasNextScene then
    some (match transitionClipDuration with
      | some d => ⟨TransitionMode.clip, if d = 0 then 2 else d⟩
      | none => ⟨TransitionMode.slide, 1⟩)
  else none

/-! ## Outro

Source: `fadeDuration = 1.5`; each frame draws the last visual asset (scale
`1.0` for videos, `1.25 + progress * 0.05` for images) and then fills black
with alpha `progress = tElapsed / fadeDuration`; after the loop the canvas is
filled solid black and held for 500 ms. -/

def outroFadeDuration : ℚ := 3/2

def outroBlackHold : ℚ := 1/2

structure OutroFrame where
  scale : ℚ
  overlayAlpha : ℚ
deriving DecidableEq

/-- One outro frame at elapsed time `tElapsed` within the fade. -/
def outroFrame (lastIsVideo : Bool) (tElapsed : ℚ) : OutroFrame :=
  let progress := tElapsed / outroFadeDuration
  { scale := if lastIsVideo then 1 else 5/4 + progress * (1/20)
    overlayAlpha := progress }

/-! ## Encoder mime-type selection and recorder configuration

Source: `let mimeType = 'video/webm'` then the `MediaRecorder.isTypeSupported`
if/else-if chain, and `new MediaRecorder(stream, { mimeType,
videoBitsPerSecond: 8000000 })`. -/

def mp4AvcAac : String := "video/mp4; codecs=avc1,mp4a.40.2"

def mp4Generic : String := "video/mp4"

def webmVp9 : String := "video/webm; codecs=vp9"

def webmGeneric : String := "video/webm"

/-- Mime type chosen for the recorder, given the runtime's support test. -/
def selectMimeType (isTypeSupported : String → Bool) : String :=
  if isTypeSupported mp4AvcAac then mp4AvcAac
  else if isTypeSupported mp4Generic then mp4Generic
  else if isTypeSupported webmVp9 then webmVp9
  else webmGeneric

/-- The fixed preference order the claim describes, most preferred first;
`webmGeneric` is the terminal fallback and is not tested for support. -/
def mimePreferenceOrder : List String := [mp4AvcAac, mp4Generic, webmVp9]

/-- Video bitrate passed to the recorder. -/
def videoBitsPerSecond : ℕ := 8000000

/-! ## Progress reports

Source: `onProgress((i / story.scenes.length) * 20, ...)` once per scene in
the asset-loading loop, `onProgress(20 + (i / story.scenes.length) * 70, ...)`
once per scene in the main loop, `onProgress(99, ...)` before the outro, and
an initial `onProgress(0, ...)` when a cover image is present. -/

def assetLoadReports (n : ℕ) : List ℚ :=
  (List.range n).map (fun i : ℕ => ((i : ℚ) / (n : ℚ)) * 20)

def mainLoopReports (n : ℕ) : List ℚ :=
  (List.range n).map (fun i : ℕ => 20 + ((i : ℚ) / (n : ℚ)) * 70)

def finalizationReport : ℚ := 99

/-- The full sequence of percent values reported during one export of an
`n`-scene story. -/
def progressReports (n : ℕ) (hasCover : Bool) : List ℚ :=
  (if hasCover then [0] else []) ++ assetLoadReports n ++ mainLoopReports n
    ++ [finalizationReport]

/-! ## drawAsset

Source: `drawAsset(ctx, asset, w, h, scale)` returns early when the asset's
intrinsic width or height is `0`; otherwise it computes the cover-fit
rectangle, multiplies by `scale`, and centers it.  The result is modelled as
the rectangle passed to `ctx.drawImage` (or `none` for the early return). -/

structure RenderRect where
  x : ℚ
  y : ℚ
  renderW : ℚ
  renderH : ℚ
deriving DecidableEq

def drawAsset (assetW assetH w h scale : ℚ) : Option RenderRect :=
  if assetW = 0 ∨ assetH = 0 then none
  else
    let assetRatio := assetW / assetH
    let canvasRatio := w / h
    let renderW0 := if assetRatio > canvasRatio then h * assetRatio else w
    let renderH0 := if assetRatio > canvasRatio then h else w / assetRatio
    let renderW := renderW0 * scale
    let renderH := renderH0 * scale
    some ⟨(w - renderW) / 2, (h - renderH) / 2, renderW, renderH⟩

/-! ## Export epilogue: catch / finally / blob delivery

Source, end of `generateStoryVideo`: the catch clause logs and rethrows; the
finally clause runs `recorder.stop()` and `audioCtx.close()` on every exit
path; the `return new Promise(...)` statement that installs `recorder.onstop`
and assembles `chunks` into a blob executes only when the body did not throw
(a thrown error propagates past it to the caller). -/

structure ExportCleanupState where
  recorderStopped : Bool
  audioCtxClosed : Bool
  onstopHandlerInstalled : Bool
deriving DecidableEq

/-- Semantics of a try/finally whose catch clause rethrows: the finalizer
runs on every exit path and the body's result (normal or exceptional) is
propagated unchanged. -/
def tryFinallyRethrow (bodyResult : Except String Unit)
    (finalizer : ExportCleanupState → ExportCleanupState)
    (st : ExportCleanupState) : ExportCleanupState × Except String Unit :=
  (finalizer st, bodyResult)

/-- Outcome of `generateStoryVideo` as observed by the caller, given the
result of the protected render body and the chunks collected so far: the
cleanup state after the function exits, and either the finalized chunk list
(the blob) or the propagated error. -/
def generateStoryVideoResult (bodyResult : Except String Unit) (chunks : List ℕ)
    (st : ExportCleanupState) : ExportCleanupState × Except String (List ℕ) :=
  let r := tryFinallyRethrow bodyResult
    (fun s => { s with recorderStopped := true, audioCtxClosed := true }) st
  match r.2 with
  | Except.error e => (r.1, Except.error e)
  | Except.ok _ => ({ r.1 with onstopHandlerInstalled := true }, Except.ok chunks)

/-- Cleanup state at function entry. -/
def initialCleanupState : ExportCleanupState :=
  ⟨false, false, false⟩

/-! ## Subtitle wrapping

Source, `drawSubtitles`: `maxWidth = w - padding * 4` with `padding = 24`;
the text is split into single characters; the first character seeds
`currentLine`; each further character is appended when
`measure(currentLine + word) < maxWidth` holds and otherwise closes the
current line and starts a new one; the final `currentLine` is always pushed.
`measure` abstracts `ctx.measureText(·).width`.  The model covers non-empty
texts (on the empty string the JS code pushes a single `undefined` entry). -/

def padding : ℚ := 24

def subtitleMaxWidth (w : ℚ) : ℚ := w - padding * 4

def wrapGo (measure : List Char → ℚ) (maxW : ℚ) :
    List Char → List Char → List (List Char) → List (List Char)
  | [], currentLine, lines => lines ++ [currentLine]
  | word :: rest, currentLine, lines =>
    if measure (currentLine ++ [word]) < maxW then
      wrapGo measure maxW rest (currentLine ++ [word]) lines
    else
      wrapGo measure maxW rest [word] (lines ++ [currentLine])

/-- Greedy character-level wrap of `drawSubtitles`. -/
def wrapLines (measure : List Char → ℚ) (maxW : ℚ) (text : List Char) :
    List (List Char) :=
  match text with
  | [] => []
  | c :: rest => wrapGo measure maxW rest [c] []

/-! ## Theorems -/

/-- C1 counterexample: for audio of duration 2.5s the code computes a scene
duration of 2.5s, while the claimed formula `max(audioDuration, 3.0)` gives
3.0s. -/
theorem sceneDuration_claim_counterexample :
    sceneDuration (some (5/2)) = 5/2 ∧ sceneDurationSpec (some (5/2)) = 3 ∧
    ((5 : ℚ)/2) ≠ 3 := by
  refine ⟨?_, ?_, by norm_num⟩
  · show max (5/2 : ℚ) 2 = 5/2
    exact max_eq_left (by norm_num)
  · show max (5/2 : ℚ) 3 = 3
    exact max_eq_right (by norm_num)

/-- C1 (amended): the scene segment duration equals `max(audioDuration, 2.0)`
when the scene has decodable narration audio, equals exactly `3.0` when it
has none, and in all cases is at least `2.0`. -/
theorem sceneDuration_amended (d : ℚ) (o : Option ℚ) :
    sceneDuration (some d) = max d 2 ∧ sceneDuration none = 3 ∧
    2 ≤ sceneDuration o := by
  refine ⟨rfl, ?_, le_max_right _ _⟩
  show max (3 : ℚ) 2 = 3
  exact max_eq_left (by norm_num)

/-- C4: Ken Burns scale is `1.10 + 0.15·p` for even-indexed scenes (so `1.10`
at `p=0` and `1.25` at `p=1`) and `1.25 − 0.15·p` for odd-indexed scenes,
while video-clip scene segments always draw at scale `1.0`. -/
theorem kenBurnsScale_spec (k : ℕ) (p b : ℚ) :
    kenBurnsScale (2 * k) p = 11/10 + (3/20) * p ∧
    kenBurnsScale (2 * k + 1) p = 5/4 - (3/20) * p ∧
    kenBurnsScale (2 * k) 0 = 11/10 ∧
    kenBurnsScale (2 * k) 1 = 5/4 ∧
    kenBurnsScale (2 * k + 1) 0 = 5/4 ∧
    kenBurnsScale (2 * k + 1) 1 = 11/10 ∧
    sceneDrawScale true (2 * k) p b = 1 ∧
    sceneDrawScale true (2 * k + 1) p b = 1 := by
  have he : (2 * k) % 2 = 0 := by omega
  have ho : (2 * k + 1) % 2 = 1 := by omega
  refine ⟨?_, ?_, ?_, ?_, ?_, ?_, rfl, rfl⟩ <;>
    simp [kenBurnsScale, he, ho] <;> ring

/-- C5 counterexample: with an odd-indexed (still-image) final scene, the
scene segment ends at Ken Burns scale `1.10`, but the outro draws the held
frame starting at scale `1.25`. -/
theorem outro_start_scale_counterexample :
    kenBurnsScale 1 1 = 11/10 ∧ (outroFrame false 0).scale = 5/4 ∧
    ((11 : ℚ)/10) ≠ 5/4 := by
  refine ⟨?_, ?_, by norm_num⟩
  · simp [kenBurnsScale]
  · simp [outroFrame, outroFadeDuration]

/-- C5 (amended): the outro holds the last scene's frame with a black overlay
ramping linearly from 0 to 1 over 1.5s followed by a 0.5s solid-black hold;
video assets draw at scale `1.0`, still images at `1.25 + 0.05·progress`
regardless of scene-index parity (which matches the last scene segment's
ending scale only for even-indexed image scenes). -/
theorem outroFrame_spec (v : Bool) (t : ℚ) :
    (outroFrame true t).scale = 1 ∧
    (outroFrame false t).scale = 5/4 + (t / outroFadeDuration) * (1/20) ∧
    (outroFrame v t).overlayAlpha = t / outroFadeDuration ∧
    (outroFrame v 0).overlayAlpha = 0 ∧
    (outroFrame v outroFadeDuration).overlayAlpha = 1 ∧
    (∀ s u : ℚ, s ≤ u →
      (outroFrame v s).overlayAlpha ≤ (outroFrame v u).overlayAlpha) ∧
    outroFadeDuration = 3/2 ∧ outroBlackHold = 1/2 := by
  refine ⟨rfl, rfl, rfl, ?_, ?_, ?_, rfl, rfl⟩
  · simp [outroFrame]
  · simp [outroFrame, outroFadeDuration]
  · intro s u hsu
    simp only [outroFrame, outroFadeDuration]
    gcongr

/-- C5 witness: the outro overlay alpha at 0s does not exceed the alpha at
1s into the fade. -/
theorem outroFrame_spec_witness :
    (0 : ℚ) ≤ 1 ∧
    (outroFrame false 0).overlayAlpha ≤ (outroFrame false 1).overlayAlpha :=
  ⟨by norm_num, (outroFrame_spec false 0).2.2.2.2.2.1 0 1 (by norm_num)⟩

/-- C3 counterexample: a transition clip whose intrinsic duration is falsy
(`0`, or `NaN` in JS) yields a transition segment of duration `2.0`, not the
clip's own duration. -/
theorem transitionSegment_counterexample :
    transitionSegment true (some 0) = some ⟨TransitionMode.clip, 2⟩ ∧
    (2 : ℚ) ≠ 0 := by
  refine ⟨?_, by norm_num⟩
  simp [transitionSegment]

/-- C3 (amended): for every adjacent scene pair, a loaded transition clip is
always rendered in clip mode (never the synthesized slide) and the segment
lasts the clip's own intrinsic duration whenever that duration is nonzero
(a falsy duration falls back to `2.0`); without a clip a synthesized slide of
fixed duration `1.0` is used; no transition runs after the last scene. -/
theorem transitionSegment_spec (d : ℚ) (hd : d ≠ 0) :
    transitionSegment true (some d) = some ⟨TransitionMode.clip, d⟩ ∧
    transitionSegment true none = some ⟨TransitionMode.slide, 1⟩ ∧
    Option.map TransitionSegment.mode (transitionSegment true (some d)) =
      some TransitionMode.clip ∧
    transitionSegment false (some d) = none := by
  refine ⟨?_, rfl, ?_, rfl⟩ <;> simp [transitionSegment, hd]

/-- C3 witness: a clip of duration 3.5s gives a clip-mode transition segment
of duration 3.5s. -/
theorem transitionSegment_spec_witness :
    ((7 : ℚ)/2 ≠ 0) ∧
    transitionSegment true (some (7/2)) =
      some ⟨TransitionMode.clip, 7/2⟩ :=
  ⟨by norm_num, (transitionSegment_spec (7/2) (by norm_num)).1⟩

/-- C6: the encoder mime type is the first runtime-supported entry of the
fixed preference order (MP4 with H.264+AAC, then generic MP4, then WebM with
VP9), with generic WebM as the untested terminal fallback, and the recorder's
video bitrate is fixed at 8 Mbps. -/
theorem selectMimeType_spec (supported : String → Bool) :
    selectMimeType supported =
      (mimePreferenceOrder.find? supported).getD webmGeneric ∧
    videoBitsPerSecond = 8000000 := by
  refine ⟨?_, rfl⟩
  cases h1 : supported mp4AvcAac <;> cases h2 : supported mp4Generic <;>
    cases h3 : supported webmVp9 <;>
      simp [selectMimeType, mimePreferenceOrder, List.find?, h1, h2, h3]

/-- C2 counterexample: when the render body throws, the caller receives the
propagated error, not a blob — even though the recorder was stopped and the
audio context closed, the chunk list is never assembled (the stop handler is
never installed). -/
theorem export_error_no_blob_counterexample :
    (generateStoryVideoResult (Except.error "boom") [1, 2] initialCleanupState).2 =
      Except.error "boom" ∧
    (generateStoryVideoResult (Except.error "boom") [1, 2] initialCleanupState).2 ≠
      Except.ok [1, 2] ∧
    (generateStoryVideoResult (Except.error "boom") [1, 2]
      initialCleanupState).1.recorderStopped = true ∧
    (generateStoryVideoResult (Except.error "boom") [1, 2]
      initialCleanupState).1.audioCtxClosed = true := by
  refine ⟨rfl, ?_, rfl, rfl⟩
  simp [generateStoryVideoResult, tryFinallyRethrow, initialCleanupState]

/-- C2 (amended): cleanup (stopping the recorder and closing the audio-clock
source) is performed unconditionally on every exit path, but on a
pipeline-level error the error itself is rethrown to the caller and the
encoded chunks are not delivered as a blob: the stop handler that would
finalize them is installed only on the success path. -/
theorem generateStoryVideoResult_spec (r : Except String Unit) (chunks : List ℕ) :
    (generateStoryVideoResult r chunks initialCleanupState).1.recorderStopped = true ∧
    (generateStoryVideoResult r chunks initialCleanupState).1.audioCtxClosed = true ∧
    (generateStoryVideoResult r chunks initialCleanupState).2 =
      r.map (fun _ => chunks) ∧
    (∀ e : String,
      (generateStoryVideoResult (Except.error e) chunks
        initialCleanupState).1.onstopHandlerInstalled = false) := by
  cases r <;>
    simp [generateStoryVideoResult, tryFinallyRethrow, initialCleanupState, Except.map]

/-! ### Progress-report helper lemmas -/

lemma assetLoadReports_bound {n : ℕ} {x : ℚ} (hx : x ∈ assetLoadReports n) :
    0 ≤ x ∧ x < 20 := by
  rw [assetLoadReports] at hx
  obtain ⟨i, hi, rfl⟩ := List.mem_map.mp hx
  rw [List.mem_range] at hi
  have hn0 : 0 < n := Nat.lt_of_le_of_lt (Nat.zero_le i) hi
  have hn : (0 : ℚ) < n := by exact_mod_cast hn0
  constructor
  · positivity
  · have h1 : (i : ℚ) / n < 1 := (div_lt_one hn).mpr (by exact_mod_cast hi)
    calc ((i : ℚ) / n) * 20 < 1 * 20 := by gcongr
      _ = 20 := by norm_num

lemma mainLoopReports_bound {n : ℕ} {x : ℚ} (hx : x ∈ mainLoopReports n) :
    20 ≤ x ∧ x < 90 := by
  rw [mainLoopReports] at hx
  obtain ⟨i, hi, rfl⟩ := List.mem_map.mp hx
  rw [List.mem_range] at hi
  have hn0 : 0 < n := Nat.lt_of_le_of_lt (Nat.zero_le i) hi
  have hn : (0 : ℚ) < n := by exact_mod_cast hn0
  constructor
  · have : (0 : ℚ) ≤ ((i : ℚ) / n) * 70 := by positivity
    linarith
  · have h1 : (i : ℚ) / n < 1 := (div_lt_one hn).mpr (by exact_mod_cast hi)
    have : ((i : ℚ) / n) * 70 < 1 * 70 := by gcongr
    linarith

lemma assetLoadReports_pairwise (n : ℕ) :
    List.Pairwise (· ≤ ·) (assetLoadReports n) := by
  rw [assetLoadReports, List.pairwise_map]
  refine (List.pairwise_lt_range n).imp ?_
  intro a b hab
  have hle : (a : ℚ) ≤ b := by exact_mod_cast hab.le
  gcongr

lemma mainLoopReports_pairwise (n : ℕ) :
    List.Pairwise (· ≤ ·) (mainLoopReports n) := by
  rw [mainLoopReports, List.pairwise_map]
  refine (List.pairwise_lt_range n).imp ?_
  intro a b hab
  have hle : (a : ℚ) ≤ b := by exact_mod_cast hab.le
  gcongr

/-- C7: across one export run the reported percent sequence is monotonically
non-decreasing; every asset-loading report lies in `[0, 20)`, every main-loop
report in `[20, 99)`, and the finalization report is `99`. -/
theorem progressReports_monotone (n : ℕ) (hasCover : Bool) :
    List.Pairwise (· ≤ ·) (progressReports n hasCover) ∧
    (∀ x ∈ assetLoadReports n, 0 ≤ x ∧ x < 20) ∧
    (∀ x ∈ mainLoopReports n, 20 ≤ x ∧ x < 99) ∧
    finalizationReport = 99 := by
  refine ⟨?_, fun x hx => assetLoadReports_bound hx,
    fun x hx => ⟨(mainLoopReports_bound hx).1,
      lt_trans (mainLoopReports_bound hx).2 (by norm_num)⟩, rfl⟩
  rw [progressReports]
  refine List.pairwise_append.mpr ⟨?_, by simp, ?_⟩
  · refine List.pairwise_append.mpr ⟨?_, mainLoopReports_pairwise n, ?_⟩
    · refine List.pairwise_append.mpr ⟨?_, assetLoadReports_pairwise n, ?_⟩
      · cases hasCover <;> simp
      · intro a ha b hb
        have ha0 : a = 0 := by cases hasCover <;> simp_all
        subst ha0
        exact (assetLoadReports_bound hb).1
    · intro a ha b hb
      have hb20 := (mainLoopReports_bound hb).1
      rcases List.mem_append.mp ha with ha | ha
      · have ha0 : a = 0 := by cases hasCover <;> simp_all
        subst ha0
        linarith
      · exact le_trans (le_of_lt (assetLoadReports_bound ha).2) hb20
  · intro a ha b hb
    simp only [List.mem_singleton] at hb
    subst hb
    show a ≤ finalizationReport
    rw [finalizationReport]
    rcases List.mem_append.mp ha with ha | ha
    · rcases List.mem_append.mp ha with ha | ha
      · have ha0 : a = 0 := by cases hasCover <;> simp_all
        subst ha0
        norm_num
      · linarith [(assetLoadReports_bound ha).2]
    · linarith [(mainLoopReports_bound ha).2]

/-- C7 witness: concrete reports of a two-scene export with a cover. -/
theorem progressReports_monotone_witness :
    ((0 : ℚ) ≤ 0 ∧ (0 : ℚ) < 20) ∧ ((20 : ℚ) ≤ 20 ∧ (20 : ℚ) < 99) := by
  have h := progressReports_monotone 2 true
  have h1 := h.2.1 0 (by norm_num [assetLoadReports, List.range_succ])
  have h2 := h.2.2.1 20 (by norm_num [mainLoopReports, List.range_succ])
  exact ⟨h1, h2⟩

/-- C9: `drawAsset` draws nothing when the asset's intrinsic width or height
is `0`; for positive dimensions (and a positive canvas and scale) it draws a
well-defined rectangle of positive size centered on the canvas. -/
theorem drawAsset_safe (assetW assetH w h scale : ℚ) :
    ((assetW = 0 ∨ assetH = 0) → drawAsset assetW assetH w h scale = none) ∧
    (0 < assetW → 0 < assetH → 0 < w → 0 < h → 0 < scale →
      ∃ r : RenderRect, drawAsset assetW assetH w h scale = some r ∧
        r.x + r.renderW / 2 = w / 2 ∧ r.y + r.renderH / 2 = h / 2 ∧
        0 < r.renderW ∧ 0 < r.renderH) := by
  constructor
  · intro h0
    simp only [drawAsset, if_pos h0]
  · intro hW hH hw hh hs
    have hne : ¬(assetW = 0 ∨ assetH = 0) := by
      push_neg
      exact ⟨ne_of_gt hW, ne_of_gt hH⟩
    have hratio : 0 < assetW / assetH := div_pos hW hH
    simp only [drawAsset, if_neg hne]
    by_cases hgt : assetW / assetH > w / h
    · refine ⟨_, by rw [if_pos hgt], ?_, ?_, ?_, ?_⟩
      · ring
      · ring
      · rw [if_pos hgt]
        exact mul_pos (mul_pos hh hratio) hs
      · rw [if_pos hgt]
        exact mul_pos hh hs
    · refine ⟨_, by rw [if_neg hgt], ?_, ?_, ?_, ?_⟩
      · ring
      · ring
      · rw [if_neg hgt]
        exact mul_pos hw hs
      · rw [if_neg hgt]
        exact mul_pos (div_pos hw hratio) hs

/-- C9 witness: a 4×3 asset on a 16×9 canvas at scale 1 is fit to a centered
16×12 rectangle, and a zero-width asset is not drawn. -/
theorem drawAsset_safe_witness :
    (drawAsset 0 3 16 9 1 = none) ∧
    ∃ r : RenderRect, drawAsset 4 3 16 9 1 = some r ∧
      r.x + r.renderW / 2 = 16 / 2 ∧ r.y + r.renderH / 2 = 9 / 2 ∧
      0 < r.renderW ∧ 0 < r.renderH :=
  ⟨(drawAsset_safe 0 3 16 9 1).1 (Or.inl rfl),
   (drawAsset_safe 4 3 16 9 1).2 (by norm_num) (by norm_num) (by norm_num)
     (by norm_num) (by norm_num)⟩

/-! ### Subtitle-wrap helper lemmas -/

lemma wrapGo_flatten (measure : List Char → ℚ) (maxW : ℚ) :
    ∀ (rest currentLine : List Char) (lines : List (List Char)),
      (wrapGo measure maxW rest currentLine lines).flatten =
        lines.flatten ++ currentLine ++ rest := by
  intro rest
  induction rest with
  | nil =>
    intro cur acc
    simp [wrapGo]
  | cons w rest ih =>
    intro cur acc
    simp only [wrapGo]
    by_cases hlt : measure (cur ++ [w]) < maxW
    · rw [if_pos hlt, ih]
      simp
    · rw [if_neg hlt, ih]
      simp

lemma wrapGo_ne_nil (measure : List Char → ℚ) (maxW : ℚ) :
    ∀ (rest currentLine : List Char) (lines : List (List Char)),
      wrapGo measure maxW rest currentLine lines ≠ [] := by
  intro rest
  induction rest with
  | nil =>
    intro cur acc
    simp [wrapGo]
  | cons w rest ih =>
    intro cur acc
    simp only [wrapGo]
    by_cases hlt : measure (cur ++ [w]) < maxW
    · rw [if_pos hlt]
      exact ih _ _
    · rw [if_neg hlt]
      exact ih _ _

lemma wrapGo_width (measure : List Char → ℚ) (maxW : ℚ) :
    ∀ (rest currentLine : List Char) (lines : List (List Char)),
      measure currentLine < maxW → (∀ l ∈ lines, measure l < maxW) →
      (∀ c ∈ rest, measure [c] < maxW) →
      ∀ l ∈ wrapGo measure maxW rest currentLine lines, measure l < maxW := by
  intro rest
  induction rest with
  | nil =>
    intro cur acc hcur hacc _ l hl
    simp only [wrapGo, List.mem_append, List.mem_singleton] at hl
    rcases hl with hl | rfl
    · exact hacc l hl
    · exact hcur
  | cons w rest ih =>
    intro cur acc hcur hacc hrest l hl
    simp only [wrapGo] at hl
    by_cases hlt : measure (cur ++ [w]) < maxW
    · rw [if_pos hlt] at hl
      exact ih _ _ hlt hacc (fun c hc => hrest c (List.mem_cons_of_mem _ hc)) l hl
    · rw [if_neg hlt] at hl
      refine ih _ _ (hrest w (List.mem_cons_self _ _)) ?_
        (fun c hc => hrest c (List.mem_cons_of_mem _ hc)) l hl
      intro lp hlp
      rcases List.mem_append.mp hlp with hmem | hmem
      · exact hacc lp hmem
      · simp only [List.mem_singleton] at hmem
        subst hmem
        exact hcur

/-- C8 counterexample: a font measure under which a single character is wider
than the maximum line width; the wrap then emits that character as a line
whose measured width exceeds the limit. -/
def overWideMeasure (l : List Char) : ℚ := 1000 * l.length

/-- C8 counterexample: with a single character measuring 1000 against the
vertical canvas's maximum line width `720 - 4·24 = 624`, the produced line
exceeds the limit. -/
theorem drawSubtitles_width_counterexample :
    wrapLines overWideMeasure (subtitleMaxWidth 720) ['a'] = [['a']] ∧
    subtitleMaxWidth 720 < overWideMeasure ['a'] := by
  constructor
  · rfl
  · norm_num [overWideMeasure, subtitleMaxWidth, padding]

/-- C8 (amended): whenever every single character of the text measures below
the maximum line width `canvasWidth − 4·padding`, no produced line's measured
width exceeds that limit (only a line made of one over-wide character can
ever exceed it). -/
theorem drawSubtitles_width_amended (measure : List Char → ℚ) (w : ℚ)
    (text : List Char)
    (hchar : ∀ c ∈ text, measure [c] < subtitleMaxWidth w) :
    ∀ l ∈ wrapLines measure (subtitleMaxWidth w) text,
      measure l ≤ subtitleMaxWidth w := by
  cases text with
  | nil =>
    intro l hl
    simp [wrapLines] at hl
  | cons c rest =>
    intro l hl
    refine le_of_lt (wrapGo_width measure (subtitleMaxWidth w) rest [c] []
      (hchar c (List.mem_cons_self _ _)) (by simp)
      (fun d hd => hchar d (List.mem_cons_of_mem _ hd)) l hl)

/-- C8 witness: with a constant character width of 5 on a 720-wide canvas,
the single produced line fits the limit. -/
theorem drawSubtitles_width_amended_witness :
    (5 : ℚ) ≤ subtitleMaxWidth 720 :=
  drawSubtitles_width_amended (fun _ => (5 : ℚ)) 720 ['a', 'b']
    (fun _ _ => by norm_num [subtitleMaxWidth, padding]) ['a', 'b']
    (by norm_num [wrapLines, wrapGo, subtitleMaxWidth, padding])

/-- C10: for every non-empty text, the greedy character wrap produces at
least one line and the in-order concatenation of the lines is exactly the
input text. -/
theorem wrapLines_concat (measure : List Char → ℚ) (maxW : ℚ)
    (text : List Char) (hne : text ≠ []) :
    wrapLines measure maxW text ≠ [] ∧
    (wrapLines measure maxW text).flatten = text := by
  cases text with
  | nil => exact absurd rfl hne
  | cons c rest =>
    refine ⟨wrapGo_ne_nil measure maxW rest [c] [], ?_⟩
    rw [wrapLines, wrapGo_flatten]
    simp

/-- C10 witness: wrapping the two-character text `ab` yields non-empty lines
that concatenate back to `ab`. -/
theorem wrapLines_concat_witness :
    wrapLines (fun _ => (5 : ℚ)) (subtitleMaxWidth 720) ['a', 'b'] ≠ [] ∧
    (wrapLines (fun _ => (5 : ℚ)) (subtitleMaxWidth 720) ['a', 'b']).flatten =
      ['a', 'b'] :=
  wrapLines_concat (fun _ => (5 : ℚ)) (subtitleMaxWidth 720) ['a', 'b']
    (by simp)

end StoryVideo
